import Mathlib

/-!
Verification development for the edge-tts batch text-to-speech script
(`src/tts/edge-tts.py`).

The script is shallowly embedded here:
* JSON values (the result of `json.loads`) are modelled by `JVal`; parsing
  itself is an external library call, so batch entry points take the parse
  outcome (`Except String JVal`, error = `json.JSONDecodeError`) as input.
* The external synthesis engine (`edge_tts.Communicate(...).save`) is an
  oracle parameter of type `Engine`: it either succeeds (`none`) or raises
  an exception carrying a message (`some msg`).
* The async generator `batch_text_to_speech` is modelled as the fully
  consumed stream of yielded tuples, together with the list of engine
  invocations performed.
* Dynamic-typing failures of the Python code (e.g. formatting a non-integer
  with `:+d`, calling `.get` on a non-dict) are modelled as exceptions, which
  the outer `try/except` of the generator turns into a single terminal
  error event, exactly as in the source.
-/

/-- JSON values as produced by Python's `json.loads`.  Objects keep their
    textual key/value list; lookups use last-binding-wins, matching the dict
    that `json.loads` builds when keys repeat. -/
inductive JVal where
  | null
  | bool (b : Bool)
  | num (n : Int)
  | str (s : String)
  | arr (elems : List JVal)
  | obj (fields : List (String × JVal))
deriving Inhabited

/-- Dict lookup with last-binding-wins, matching the dict `json.loads` builds
    from a JSON object with (possibly repeated) keys. -/
def jlookup (fields : List (String × JVal)) (k : String) : Option JVal :=
  match fields with
  | [] => none
  | (k', v) :: rest =>
    match jlookup rest k with
    | some w => some w
    | none => if k' = k then some v else none

/-- Python's `d.get(key, default)`: the stored value if the key is present
    (even when that value is `None`), the default only when absent. -/
def jgetD (fields : List (String × JVal)) (k : String) (dflt : JVal) : JVal :=
  match jlookup fields k with
  | some v => v
  | none => dflt

/-- Python truthiness of a JSON value (`if not voice:` etc.). -/
def JVal.truthy : JVal → Bool
  | .null => false
  | .bool b => b
  | .num n => n != 0
  | .str s => s != ""
  | .arr xs => !xs.isEmpty
  | .obj kvs => !kvs.isEmpty

/-- Rendering used by f-string interpolation (`str()`); for containers the
    exact Python repr is irrelevant to every claim and abbreviated. -/
def pyStr : JVal → String
  | .null => "None"
  | .bool b => if b then "True" else "False"
  | .num n => toString n
  | .str s => s
  | .arr _ => "[...]"
  | .obj _ => "\x7b...\x7d"

/-- Formatting of an integer by Python's `f"{n:+d}"`: an explicit sign
    followed by the decimal digits of the absolute value. -/
def fmtSigned (n : Int) : String :=
  if n < 0 then "-" ++ toString n.natAbs else "+" ++ toString n.natAbs

/-- Does `pat` occur as a contiguous run at the head of `l`? -/
def leadMatch : List Char → List Char → Bool
  | [], _ => true
  | _ :: _, [] => false
  | a :: as, b :: bs => a == b && leadMatch as bs

/-- Does the string start with the given plain prefix text? -/
def strStarts (s pre : String) : Bool :=
  leadMatch pre.toList s.toList

/-- Does the string end with the given plain suffix text? -/
def strEnds (s suf : String) : Bool :=
  leadMatch suf.toList.reverse s.toList.reverse

/-- Python's `os.path.join(a, b)` for the shapes reachable in this program. -/
def pathJoin (a b : String) : String :=
  if strStarts b "/" then b
  else if a = "" then b
  else if strEnds a "/" then a ++ b
  else a ++ "/" ++ b

/-- Characters matched by `\s` in Python's `re`, and stripped by `str.strip`
    (ASCII range). -/
def isPySpace (c : Char) : Bool :=
  c == ' ' || c == '\t' || c == '\n' || c == '\r' || c == '\x0b' || c == '\x0c'

/-- Python's `str.strip()`: drop leading and trailing whitespace. -/
def stripChars (l : List Char) : List Char :=
  ((l.dropWhile isPySpace).reverse.dropWhile isPySpace).reverse

/-- Python's `text.strip()` on strings. -/
def pyStrip (s : String) : String :=
  String.mk (stripChars s.toList)

/-- Characters before the first occurrence of the separator run: computes
    `s.split(sep)[0]` for a non-empty separator. -/
def takeUntilRun (sep : List Char) : List Char → List Char
  | [] => []
  | c :: cs =>
    if leadMatch sep (c :: cs) then [] else c :: takeUntilRun sep cs

/-- Python's `voice.split(" - ")[0]`. -/
def splitHead (s sep : String) : String :=
  String.mk (takeUntilRun sep.toList s.toList)

/-- One invocation of `edge_tts.Communicate(text, voice, rate=..., pitch=...)`
    followed by `.save(path)`: the data the program hands to the engine. -/
structure EngineCall where
  text : String
  voice : String
  rate : String
  pitch : String
  path : String
deriving Repr, DecidableEq

/-- The external synthesis engine as an oracle: `none` means the save
    succeeded, `some msg` means the engine raised an exception. -/
def Engine : Type := EngineCall → Option String

/-- Outcome of `text_to_speech`: a normal return `(path, None)`, a validation
    return `(None, msg)`, or a propagating exception (with the engine call
    that was attempted, when one was). -/
inductive T2SResult where
  | ok (path : String) (call : EngineCall)
  | verr (msg : String)
  | exn (msg : String) (call : Option EngineCall)

/-- Engine call attempted by a `T2SResult`, if any. -/
def T2SResult.callOf : T2SResult → Option EngineCall
  | .ok _ c => some c
  | .verr _ => none
  | .exn _ c => c

/-- Result of `f"{rate:+d}%"` on a JSON value: ints format with an explicit
    sign, bools format as the ints 0/1, everything else raises. -/
def rateStrOf : JVal → Option String
  | .num n => some (fmtSigned n ++ "%")
  | .bool b => some (fmtSigned (if b then 1 else 0) ++ "%")
  | _ => none

/-- Result of `f"{pitch:+d}Hz"` on a JSON value, see `rateStrOf`. -/
def pitchStrOf : JVal → Option String
  | .num n => some (fmtSigned n ++ "Hz")
  | .bool b => some (fmtSigned (if b then 1 else 0) ++ "Hz")
  | _ => none

/-- Shallow embedding of `text_to_speech` (src/tts/edge-tts.py lines 17-40).
    `tempName` stands for the name `tempfile.NamedTemporaryFile` would pick
    when no output directory / file name is given; `output_dir = ""` plays
    the role of `None`.  Arguments arrive as JSON values because the batch
    loop passes raw task fields; ill-typed fields raise, as in Python. -/
def text_to_speech (eng : Engine) (tempName : String)
    (text voice rate pitch : JVal) (output_dir : String) (file_name : JVal) :
    T2SResult :=
  match text with
  | .str t =>
    if pyStrip t = "" then .verr "Please enter text to convert."
    else if !voice.truthy then .verr "Please select a voice."
    else
      match voice with
      | .str vs =>
        let voice_short_name := splitHead vs " - "
        match rateStrOf rate with
        | none => .exn "TypeError: unsupported operand for format +d" none
        | some rate_str =>
          match pitchStrOf pitch with
          | none => .exn "TypeError: unsupported operand for format +d" none
          | some pitch_str =>
            if output_dir != "" && file_name.truthy then
              match file_name with
              | .str fn =>
                let output_path := pathJoin output_dir fn
                let call : EngineCall :=
                  ⟨t, voice_short_name, rate_str, pitch_str, output_path⟩
                match eng call with
                | none => .ok output_path call
                | some m => .exn m (some call)
              | _ => .exn "TypeError: join argument must be str" none
            else
              let call : EngineCall :=
                ⟨t, voice_short_name, rate_str, pitch_str, tempName⟩
              match eng call with
              | none => .ok tempName call
              | some m => .exn m (some call)
      | _ => .exn "AttributeError: object has no attribute split" none
  | _ => .exn "AttributeError: object has no attribute strip" none

/-- One tuple yielded by the async generator `batch_text_to_speech`:
    `(results, error, generated_files, current_progress, total_tasks)`. -/
structure Event where
  results : Option (List String)
  error : Option String
  files : List JVal
  current : Nat
  total : Nat

/-- Does `pat` occur as a contiguous run anywhere in `l`?  Used for Python's
    substring test `key in someString`. -/
def containsRun (pat : List Char) : List Char → Bool
  | [] => pat.isEmpty
  | b :: bs => leadMatch pat (b :: bs) || containsRun pat bs

/-- Python's `"x" == v` for a JSON value `v`: only equal strings compare
    equal (no other JSON value equals a `str`). -/
def arrHasStr (xs : List JVal) (k : String) : Bool :=
  xs.any fun v => match v with | .str s => s == k | _ => false

/-- Python's `key in task` for an arbitrary JSON value `task`: key lookup for
    dicts, substring test for strings, element test for lists, and a
    `TypeError` (modelled as `none`) for the remaining types. -/
def hasKeyB : JVal → String → Option Bool
  | .obj kvs, k => some (jlookup kvs k).isSome
  | .str s, k => some (containsRun k.toList s.toList)
  | .arr xs, k => some (arrHasStr xs k)
  | _, _ => none

/-- Outcome of the field validation
    `if "text" not in task or "file_name" not in task:` with Python's
    short-circuit evaluation and dynamic typing. -/
inductive KeyCheck where
  | raise
  | missing
  | present
deriving Repr, DecidableEq

/-- Evaluates the required-field check for one task. -/
def keyCheckOf (task : JVal) : KeyCheck :=
  match hasKeyB task "text" with
  | none => .raise
  | some false => .missing
  | some true =>
    match hasKeyB task "file_name" with
    | none => .raise
    | some false => .missing
    | some true => .present

/-- Per-item log line for a task with missing required fields. -/
def missingMsg (i : Nat) : String :=
  "Error in item " ++ toString i ++
    ": Missing required fields \x27text\x27 or \x27file_name\x27"

/-- Per-item log line for a validation error returned by `text_to_speech`. -/
def errItemMsg (i : Nat) (msg : String) : String :=
  "Error in item " ++ toString i ++ ": " ++ msg

/-- Success log line `f"Successfully generated: {task['file_name']}"`. -/
def successMsg (fileName : JVal) : String :=
  "Successfully generated: " ++ pyStr fileName

/-- Terminal event produced by the outer `except Exception` handler.  (The
    Python text also appends a traceback dump after the message; no claim
    depends on it and it is elided.) -/
def batchExnEvent (m : String) : Event :=
  ⟨none, some ("Error processing batch: " ++ m), [], 0, 0⟩

/-- The task loop of `batch_text_to_speech` (src/tts/edge-tts.py lines
    56-92), modelled as the list of yielded events plus the list of engine
    calls attempted.  `i` is the 0-based index of the first remaining task,
    `results` and `files` the cumulative log and generated-file list, and
    `total` the value of `total_tasks`.  An exception anywhere in the body
    transfers control to the outer handler, which yields one terminal event
    and ends the generator. -/
def processTasks (eng : Engine) (tempName output_dir dv : String)
    (dr dp : Int) (total : Nat) :
    Nat → List String → List JVal → List JVal → List Event × List EngineCall
  | _, results, files, [] => ([⟨some results, none, files, total, total⟩], [])
  | i, results, files, task :: rest =>
    match keyCheckOf task with
    | .raise =>
      ([batchExnEvent "TypeError: argument of type is not iterable"], [])
    | .missing =>
      let results' := results ++ [missingMsg i]
      let r := processTasks eng tempName output_dir dv dr dp total
        (i + 1) results' files rest
      (⟨some results', none, files, i + 1, total⟩ :: r.1, r.2)
    | .present =>
      match task with
      | .obj kvs =>
        let tText := jgetD kvs "text" .null
        let tVoice := jgetD kvs "voice" (.str dv)
        let tRate := jgetD kvs "rate" (.num dr)
        let tPitch := jgetD kvs "pitch" (.num dp)
        let tFile := jgetD kvs "file_name" .null
        match text_to_speech eng tempName tText tVoice tRate tPitch
            output_dir tFile with
        | .exn m c =>
          ([batchExnEvent m], match c with | some call => [call] | none => [])
        | .verr msg =>
          let results' := results ++ [errItemMsg i msg]
          let r := processTasks eng tempName output_dir dv dr dp total
            (i + 1) results' files rest
          (⟨some results', none, files, i + 1, total⟩ :: r.1, r.2)
        | .ok _ call =>
          let results' := results ++ [successMsg tFile]
          let files' := files ++ [tFile]
          let r := processTasks eng tempName output_dir dv dr dp total
            (i + 1) results' files' rest
          (⟨some results', none, files', i + 1, total⟩ :: r.1, call :: r.2)
      | _ =>
        ([batchExnEvent "AttributeError: object has no attribute get"], [])

/-- Shallow embedding of the generator `batch_text_to_speech`
    (src/tts/edge-tts.py lines 42-96): the full stream of yielded events and
    the engine calls attempted.  `parsed` is the outcome of
    `json.loads(json_input)` (an external library call), `.error e`
    standing for a `json.JSONDecodeError` with message `e`. -/
def batch_text_to_speech (eng : Engine) (tempName : String)
    (parsed : Except String JVal) (default_voice : String)
    (default_rate default_pitch : Int) (output_dir : String) :
    List Event × List EngineCall :=
  match parsed with
  | .error e =>
    ([⟨none, some ("JSON parsing error: " ++ e), [], 0, 0⟩], [])
  | .ok (.arr tasks) =>
    processTasks eng tempName output_dir default_voice default_rate
      default_pitch tasks.length 0 [] [] tasks
  | .ok _ =>
    ([⟨none, some "Error: JSON input must be a list", [], 0, 0⟩], [])

/-- True when processing this task raises an exception (ending the whole
    batch), mirroring the branch structure of `processTasks`. -/
def stepAborts (eng : Engine) (tempName output_dir dv : String)
    (dr dp : Int) (task : JVal) : Bool :=
  match keyCheckOf task with
  | .raise => true
  | .missing => false
  | .present =>
    match task with
    | .obj kvs =>
      match text_to_speech eng tempName (jgetD kvs "text" .null)
          (jgetD kvs "voice" (.str dv)) (jgetD kvs "rate" (.num dr))
          (jgetD kvs "pitch" (.num dp)) output_dir
          (jgetD kvs "file_name" .null) with
      | .exn _ _ => true
      | _ => false
    | _ => true

/-- Characters matched by `\w` in Python's `re` on the inputs of interest
    (ASCII letters, digits and underscore; Python additionally counts
    non-ASCII word characters, which no claim depends on). -/
def isPyWordChar (c : Char) : Bool :=
  c.isAlphanum || c == '_'

/-- The abbreviation before the empty-check of `create_abbreviation`:
    `re.sub(r'[^\w\s]', '', text)[:max_length].strip().replace(' ', '_')`. -/
def abbrevCore (text : String) (max_length : Nat) : List Char :=
  let cleaned := text.toList.filter fun c => isPyWordChar c || isPySpace c
  (stripChars (cleaned.take max_length)).map fun c => if c == ' ' then '_' else c

/-- Shallow embedding of `create_abbreviation` (src/tts/edge-tts.py lines
    98-110); the Python default for `max_length` is 20. -/
def create_abbreviation (text : String) (max_length : Nat) : String :=
  let ab := abbrevCore text max_length
  (if ab.isEmpty then "audio" else String.mk ab) ++ ".mp3"

/-- Strict lexicographic comparison of character lists by code point,
    Python's `<` on `str`. -/
def lexLt : List Char → List Char → Bool
  | [], [] => false
  | [], _ :: _ => true
  | _ :: _, [] => false
  | a :: as, b :: bs =>
    if a.toNat < b.toNat then true
    else if b.toNat < a.toNat then false
    else lexLt as bs

/-- Python's `a <= b` on strings. -/
def strLeB (a b : String) : Bool :=
  !lexLt b.toList a.toList

/-- Stable insertion of a string into a sorted list. -/
def insertSorted (x : String) : List String → List String
  | [] => [x]
  | y :: ys => if strLeB x y then x :: y :: ys else y :: insertSorted x ys

/-- Embedding of Python's `sorted` on strings (lexicographic by code point,
    as a stable insertion sort — extensionally equal to any sort). -/
def sortStrings : List String → List String
  | [] => []
  | x :: xs => insertSorted x (sortStrings xs)

/-- First-occurrence deduplication; represents the construction of the
    Python `set` of on-disk file names (a set has no duplicates, and every
    later use of it in the source is order-insensitive). -/
def dedupFirst : List String → List String
  | [] => []
  | x :: xs => x :: dedupFirst (xs.filter fun y => y ≠ x)
termination_by l => l.length
decreasing_by
  simp only [List.length_cons]
  exact Nat.lt_succ_of_le (List.length_filter_le _ _)

/-- The reordering loop of `update_audio_list` (src/tts/edge-tts.py lines
    370-375) over the parsed task list, threading the `available_files` set:
    returns `(ordered_files, remaining available_files)`, or `none` when the
    body raises a `TypeError` (non-dict task reached by subscripting, or an
    unhashable `file_name` value), which the outer handler turns into `[]`. -/
def orderLoop : List JVal → List String → Option (List String × List String)
  | [], avail => some ([], avail)
  | task :: rest, avail =>
    match task with
    | .obj kvs =>
      match jlookup kvs "file_name" with
      | none => orderLoop rest avail
      | some (.str s) =>
        if s ∈ avail then
          match orderLoop rest (avail.erase s) with
          | none => none
          | some p => some (s :: p.1, p.2)
        else orderLoop rest avail
      | some (.arr _) => none
      | some (.obj _) => none
      | some _ => orderLoop rest avail
    | .str s' =>
      if containsRun "file_name".toList s'.toList then none
      else orderLoop rest avail
    | .arr xs =>
      if arrHasStr xs "file_name" then none else orderLoop rest avail
    | _ => none

/-- Shallow embedding of `update_audio_list` (src/tts/edge-tts.py lines
    356-386).  `dirExists` is `os.path.exists(output_dir)`, `listing` the
    directory listing, and `json_input` the parse outcome of the ordering
    JSON (`none` standing for a falsy `json_input` argument). -/
def update_audio_list (dirExists : Bool) (listing : List String)
    (json_input : Option (Except String JVal)) : List String :=
  if !dirExists then []
  else
    let available := dedupFirst (listing.filter (strEnds · ".mp3"))
    match json_input with
    | some (.ok (.arr tasks)) =>
      match orderLoop tasks available with
      | some p => p.1 ++ sortStrings p.2
      | none => []
    | some _ => sortStrings available
    | none => sortStrings available

/-- The `file_name` a task contributes to the JSON ordering, when the task
    is an object whose `file_name` value is a string. -/
def taskFileName : JVal → Option String
  | .obj kvs =>
    match jlookup kvs "file_name" with
    | some (.str s) => some s
    | _ => none
  | _ => none

/-- Sequence of file names referenced by a parsed task list, in order. -/
def jsonNames (ts : List JVal) : List String :=
  ts.filterMap taskFileName

/-- A task shaped like the spec's SynthesisTask as far as the reconciler
    reads it: a JSON object whose `file_name` value, when present, is a
    string. -/
def wfTask : JVal → Bool
  | .obj kvs =>
    match jlookup kvs "file_name" with
    | none => true
    | some (.str _) => true
    | some _ => false
  | _ => false

/-- Is the parsed JSON value a list? (`isinstance(tasks, list)`). -/
def isArrB : JVal → Bool
  | .arr _ => true
  | _ => false

/-- A task carrying `"voice": null`, for the C3 analysis. -/
def nullVoiceTask : JVal :=
  .obj [("text", .str "hi"), ("file_name", .str "a.mp3"), ("voice", .null)]

/-- A task object whose `"rate"` is null: processing it raises a
    `TypeError` in `f"{rate:+d}%"`. -/
def rateNullTask : JVal :=
  .obj [("text", .str "hi"), ("file_name", .str "a.mp3"), ("rate", .null)]

/-- An engine that always saves successfully, for concrete instantiations. -/
def engOk : Engine := fun _ => none

/-- An engine whose save always raises, for concrete instantiations. -/
def engFail : Engine := fun _ => some "network error"

/-- A well-formed task with the two required string fields. -/
def goodTask (t f : String) : JVal :=
  .obj [("text", .str t), ("file_name", .str f)]

lemma fmtSigned_sign (n : Int) :
    ∃ s, fmtSigned n = "+" ++ s ∨ fmtSigned n = "-" ++ s := by
  unfold fmtSigned
  split
  · exact ⟨toString n.natAbs, Or.inr rfl⟩
  · exact ⟨toString n.natAbs, Or.inl rfl⟩

lemma callOf_rate_pitch (eng : Engine) (tmp t vs dir : String) (r p : Int)
    (f : JVal) (c : EngineCall)
    (h : (text_to_speech eng tmp (.str t) (.str vs) (.num r) (.num p)
      dir f).callOf = some c) :
    c.rate = fmtSigned r ++ "%" ∧ c.pitch = fmtSigned p ++ "Hz" := by
  unfold text_to_speech at h
  simp only [rateStrOf, pitchStrOf] at h
  split at h
  · simp [T2SResult.callOf] at h
  · split at h
    · simp [T2SResult.callOf] at h
    · split at h
      · split at h
        · split at h <;> simp_all [T2SResult.callOf] <;> subst h <;> simp
        · simp [T2SResult.callOf] at h
      · split at h <;> simp_all [T2SResult.callOf] <;> subst h <;> simp

/-- Claim C7: for every integer rate and pitch, the rate/pitch strings the
    program sends to the engine are the signed-percent and signed-Hz
    renderings (always carrying an explicit leading sign), and in particular
    rate 10 formats to "+10%", rate -5 to "-5%", and pitch 0 to "+0Hz". -/
theorem C7_signed_format (eng : Engine) (tmp t vs dir : String) (r p : Int)
    (f : JVal) (c : EngineCall)
    (h : (text_to_speech eng tmp (.str t) (.str vs) (.num r) (.num p)
      dir f).callOf = some c) :
    (c.rate = fmtSigned r ++ "%" ∧ c.pitch = fmtSigned p ++ "Hz"
      ∧ (∃ s, c.rate = "+" ++ s ∨ c.rate = "-" ++ s)
      ∧ (∃ s, c.pitch = "+" ++ s ∨ c.pitch = "-" ++ s))
    ∧ fmtSigned 10 ++ "%" = "+10%"
    ∧ fmtSigned (-5) ++ "%" = "-5%"
    ∧ fmtSigned 0 ++ "Hz" = "+0Hz" := by
  obtain ⟨hr, hp⟩ := callOf_rate_pitch eng tmp t vs dir r p f c h
  refine ⟨⟨hr, hp, ?_, ?_⟩, by decide, by decide, by decide⟩
  · obtain ⟨s, hs | hs⟩ := fmtSigned_sign r
    · exact ⟨s ++ "%", Or.inl (by rw [hr, hs, String.append_assoc])⟩
    · exact ⟨s ++ "%", Or.inr (by rw [hr, hs, String.append_assoc])⟩
  · obtain ⟨s, hs | hs⟩ := fmtSigned_sign p
    · exact ⟨s ++ "Hz", Or.inl (by rw [hp, hs, String.append_assoc])⟩
    · exact ⟨s ++ "Hz", Or.inr (by rw [hp, hs, String.append_assoc])⟩

/-- Witness for C7 at a concrete synthesis call. -/
theorem C7_signed_format_witness :
    (text_to_speech engOk "tmp.mp3" (.str "Hi") (.str "v") (.num 10)
        (.num 0) "" .null).callOf =
      some ⟨"Hi", "v", "+10%", "+0Hz", "tmp.mp3"⟩
    ∧ ((⟨"Hi", "v", "+10%", "+0Hz", "tmp.mp3"⟩ : EngineCall).rate =
          fmtSigned 10 ++ "%"
        ∧ (⟨"Hi", "v", "+10%", "+0Hz", "tmp.mp3"⟩ : EngineCall).pitch =
          fmtSigned 0 ++ "Hz"
        ∧ (∃ s, (⟨"Hi", "v", "+10%", "+0Hz", "tmp.mp3"⟩ : EngineCall).rate =
              "+" ++ s
            ∨ (⟨"Hi", "v", "+10%", "+0Hz", "tmp.mp3"⟩ : EngineCall).rate =
              "-" ++ s)
        ∧ (∃ s, (⟨"Hi", "v", "+10%", "+0Hz", "tmp.mp3"⟩ : EngineCall).pitch =
              "+" ++ s
            ∨ (⟨"Hi", "v", "+10%", "+0Hz", "tmp.mp3"⟩ : EngineCall).pitch =
              "-" ++ s))
      ∧ fmtSigned 10 ++ "%" = "+10%"
      ∧ fmtSigned (-5) ++ "%" = "-5%"
      ∧ fmtSigned 0 ++ "Hz" = "+0Hz" :=
  ⟨by decide, C7_signed_format engOk "tmp.mp3" "Hi" "v" "" 10 0 .null
    ⟨"Hi", "v", "+10%", "+0Hz", "tmp.mp3"⟩ (by decide)⟩

lemma lenDropWhileLe (p : Char → Bool) (l : List Char) :
    (l.dropWhile p).length ≤ l.length := by
  induction l with
  | nil => simp
  | cons x xs ih =>
    rw [List.dropWhile_cons]
    split
    · exact Nat.le_trans ih (by simp)
    · simp

lemma abbrevCore_length_le (t : String) (ml : Nat) :
    (abbrevCore t ml).length ≤ ml := by
  unfold abbrevCore stripChars
  simp only [List.length_map, List.length_reverse]
  calc ((((t.toList.filter fun c => isPyWordChar c || isPySpace c).take
            ml).dropWhile isPySpace).reverse.dropWhile isPySpace).length
      ≤ (((t.toList.filter fun c => isPyWordChar c || isPySpace c).take
            ml).dropWhile isPySpace).reverse.length :=
        lenDropWhileLe _ _
    _ = (((t.toList.filter fun c => isPyWordChar c || isPySpace c).take
            ml).dropWhile isPySpace).length := List.length_reverse _
    _ ≤ ((t.toList.filter fun c => isPyWordChar c || isPySpace c).take
            ml).length := lenDropWhileLe _ _
    _ ≤ ml := List.length_take_le _ _

lemma abbrevCore_no_space (t : String) (ml : Nat) :
    ∀ c ∈ abbrevCore t ml, c ≠ ' ' := by
  intro c hc
  unfold abbrevCore at hc
  obtain ⟨a, _, ha⟩ := List.mem_map.mp hc
  by_cases h : a == ' '
  · simp only [h, if_true] at ha
    subst ha
    decide
  · simp only [h, if_false, Bool.false_eq_true] at ha
    subst ha
    simpa using h

/-- Claim C9: for every input text, `create_abbreviation` returns a name
    ending in ".mp3" whose base is non-empty (the literal "audio" when the
    cleaned, truncated text strips to nothing), contains no space characters,
    and has at most 20 characters (the truncation bound). -/
theorem C9_abbreviation (t : String) :
    (∃ base : String, create_abbreviation t 20 = base ++ ".mp3"
      ∧ base ≠ "" ∧ base.length ≤ 20 ∧ ∀ c ∈ base.toList, c ≠ ' ')
    ∧ (abbrevCore t 20 = [] → create_abbreviation t 20 = "audio.mp3") := by
  constructor
  · refine ⟨if (abbrevCore t 20).isEmpty then "audio"
      else String.mk (abbrevCore t 20), rfl, ?_, ?_, ?_⟩
    · split
      · decide
      · rename_i h
        intro hcon
        have : abbrevCore t 20 = [] := congrArg String.data hcon
        simp [this] at h
    · split
      · decide
      · exact abbrevCore_length_le t 20
    · split
      · decide
      · exact abbrevCore_no_space t 20
  · intro h
    unfold create_abbreviation
    simp [h]

/-- Witness for C9 at the empty input. -/
theorem C9_abbreviation_witness :
    abbrevCore "" 20 = [] ∧ create_abbreviation "" 20 = "audio.mp3" :=
  ⟨by decide, (C9_abbreviation "").2 (by decide)⟩

lemma append_ne_empty_left (a b : String) (h : a.length ≠ 0) :
    a ++ b ≠ "" := by
  intro hc
  have hlen := congrArg String.length hc
  rw [String.length_append] at hlen
  have h0 : ("" : String).length = 0 := rfl
  rw [h0] at hlen
  omega

/-- Claim C5: an input that is invalid JSON, or parses to a non-list, makes
    the batch runner yield exactly one event with current index and total
    count 0 and a non-empty error message, and attempt no synthesis. -/
theorem C5_batch_parse_failure (eng : Engine) (tmp dv dir : String)
    (dr dp : Int) :
    (∀ e, batch_text_to_speech eng tmp (.error e) dv dr dp dir =
        ([⟨none, some ("JSON parsing error: " ++ e), [], 0, 0⟩], [])
      ∧ ("JSON parsing error: " ++ e) ≠ "")
    ∧ (∀ v, isArrB v = false →
        batch_text_to_speech eng tmp (.ok v) dv dr dp dir =
          ([⟨none, some "Error: JSON input must be a list", [], 0, 0⟩], [])
        ∧ ("Error: JSON input must be a list" : String) ≠ "") := by
  constructor
  · intro e
    exact ⟨rfl, append_ne_empty_left _ _ (by decide)⟩
  · intro v hv
    refine ⟨?_, by decide⟩
    cases v <;> first | rfl | simp [isArrB] at hv

/-- Witness for C5 at a concrete malformed input and a concrete non-list. -/
theorem C5_batch_parse_failure_witness :
    (batch_text_to_speech engOk "tmp.mp3" (.error "Expecting value") "dv" 0 0
        "output_audio" =
      ([⟨none, some ("JSON parsing error: " ++ "Expecting value"), [], 0, 0⟩],
        [])
      ∧ ("JSON parsing error: " ++ "Expecting value") ≠ "")
    ∧ isArrB (.str "not a list") = false
    ∧ (batch_text_to_speech engOk "tmp.mp3" (.ok (.str "not a list")) "dv" 0 0
        "output_audio" =
      ([⟨none, some "Error: JSON input must be a list", [], 0, 0⟩], [])
      ∧ ("Error: JSON input must be a list" : String) ≠ "") :=
  ⟨(C5_batch_parse_failure engOk "tmp.mp3" "dv" "output_audio" 0 0).1
      "Expecting value",
    by decide,
    (C5_batch_parse_failure engOk "tmp.mp3" "dv" "output_audio" 0 0).2
      (.str "not a list") (by decide)⟩

/-- Counterexample to claim C3 as stated: with the key `"voice"` present but
    null, `task.get("voice", default_voice)` resolves to the stored null, not
    to the batch default; the batch then records a per-item validation error
    and performs no synthesis, instead of synthesizing with the default
    voice. -/
theorem C3_counterexample :
    jgetD [("text", JVal.str "hi"), ("file_name", JVal.str "a.mp3"),
        ("voice", JVal.null)] "voice"
        (.str "en-US-AriaNeural - en-US (Female)") = JVal.null
    ∧ (JVal.null = JVal.str "en-US-AriaNeural - en-US (Female)" → False)
    ∧ (batch_text_to_speech engOk "tmp.mp3"
        (.ok (.arr [nullVoiceTask])) "en-US-AriaNeural - en-US (Female)" 0 0
        "output_audio").2 = []
    ∧ ((batch_text_to_speech engOk "tmp.mp3"
        (.ok (.arr [nullVoiceTask])) "en-US-AriaNeural - en-US (Female)" 0 0
        "output_audio").1.map fun e => e.results) =
      [some ["Error in item 0: Please select a voice."],
        some ["Error in item 0: Please select a voice."]] :=
  ⟨rfl, fun h => JVal.noConfusion h, by decide, by decide⟩

/-- Claim C3 as amended: the task's own value is used whenever the key is
    present — even when the stored value is null, in which case a null voice
    leads to the per-item "Please select a voice." validation error rather
    than a fallback — and the batch default is used exactly when the key is
    absent. -/
theorem C3_amended :
    (∀ kvs k d, jlookup kvs k = none → jgetD kvs k d = d)
    ∧ (∀ kvs k d v, jlookup kvs k = some v → jgetD kvs k d = v)
    ∧ (∀ (eng : Engine) (tmp dir dv : String) (dr dp : Int)
        (total i : Nat) (rs : List String) (fs : List JVal)
        (kvs : List (String × JVal)) (rest : List JVal) (t : String),
        jlookup kvs "text" = some (.str t) →
        pyStrip t ≠ "" →
        (jlookup kvs "file_name").isSome = true →
        jlookup kvs "voice" = some .null →
        (processTasks eng tmp dir dv dr dp total i rs fs
            (.obj kvs :: rest)).1 =
          ⟨some (rs ++ [errItemMsg i "Please select a voice."]), none, fs,
              i + 1, total⟩ ::
            (processTasks eng tmp dir dv dr dp total (i + 1)
              (rs ++ [errItemMsg i "Please select a voice."]) fs rest).1) := by
  refine ⟨?_, ?_, ?_⟩
  · intro kvs k d h
    simp [jgetD, h]
  · intro kvs k d v h
    simp [jgetD, h]
  · intro eng tmp dir dv dr dp total i rs fs kvs rest t htext ht hfile hvoice
    have hkc : keyCheckOf (.obj kvs) = .present := by
      simp [keyCheckOf, hasKeyB, htext, hfile]
    have htt : jgetD kvs "text" .null = .str t := by simp [jgetD, htext]
    have htv : jgetD kvs "voice" (.str dv) = .null := by simp [jgetD, hvoice]
    simp only [processTasks, hkc, htt, htv]
    have ht2s : text_to_speech eng tmp (.str t) .null
        (jgetD kvs "rate" (.num dr)) (jgetD kvs "pitch" (.num dp)) dir
        (jgetD kvs "file_name" .null) = .verr "Please select a voice." := by
      simp [text_to_speech, ht, JVal.truthy]
    rw [ht2s]

/-- Witness for C3's amended statement: a task without the key falls back to
    the default, a task with a null value keeps the null and yields the
    validation error. -/
theorem C3_amended_witness :
    (jlookup [("text", JVal.str "hi")] "voice" = none
      ∧ jgetD [("text", JVal.str "hi")] "voice" (.str "dv") = .str "dv")
    ∧ (jlookup [("voice", JVal.null)] "voice" = some .null
      ∧ jgetD [("voice", JVal.null)] "voice" (.str "dv") = .null)
    ∧ (processTasks engOk "tmp.mp3" "output_audio" "dv" 0 0 1 0 [] []
        [nullVoiceTask]).1 =
      ⟨some ([] ++ [errItemMsg 0 "Please select a voice."]), none, [], 0 + 1,
          1⟩ ::
        (processTasks engOk "tmp.mp3" "output_audio" "dv" 0 0 1 (0 + 1)
          ([] ++ [errItemMsg 0 "Please select a voice."]) [] []).1 :=
  ⟨⟨rfl, C3_amended.1 _ _ _ rfl⟩,
    ⟨rfl, C3_amended.2.1 _ _ _ _ rfl⟩,
    C3_amended.2.2 engOk "tmp.mp3" "output_audio" "dv" 0 0 1 0 [] []
      [("text", .str "hi"), ("file_name", .str "a.mp3"), ("voice", .null)] []
      "hi" rfl (by decide) rfl rfl⟩

/-- Claim C6: a task lacking `"text"` or `"file_name"` gets the per-item
    error line carrying its 0-based index appended to the log, a progress
    event is still yielded for it, and the loop then continues with exactly
    the remaining tasks. -/
theorem C6_missing_fields (eng : Engine) (tmp dir dv : String) (dr dp : Int)
    (total i : Nat) (rs : List String) (fs : List JVal) (task : JVal)
    (rest : List JVal)
    (h : hasKeyB task "text" = some false
      ∨ (hasKeyB task "text" = some true
          ∧ hasKeyB task "file_name" = some false)) :
    (processTasks eng tmp dir dv dr dp total i rs fs (task :: rest)).1 =
      ⟨some (rs ++ [missingMsg i]), none, fs, i + 1, total⟩ ::
        (processTasks eng tmp dir dv dr dp total (i + 1)
          (rs ++ [missingMsg i]) fs rest).1
    ∧ ∃ pre suf,
        (missingMsg i).toList = pre ++ (toString i).toList ++ suf := by
  have hkc : keyCheckOf task = .missing := by
    rcases h with h1 | ⟨h1, h2⟩
    · simp [keyCheckOf, h1]
    · simp [keyCheckOf, h1, h2]
  constructor
  · simp only [processTasks, hkc]
  · exact ⟨"Error in item ".toList,
      ": Missing required fields \x27text\x27 or \x27file_name\x27".toList,
      rfl⟩

/-- Witness for C6 at a two-task batch whose first task lacks
    `"file_name"`. -/
theorem C6_missing_fields_witness :
    (hasKeyB (.obj [("text", JVal.str "x")]) "text" = some true
      ∧ hasKeyB (.obj [("text", JVal.str "x")]) "file_name" = some false)
    ∧ ((processTasks engOk "tmp.mp3" "output_audio" "dv" 0 0 2 0 [] []
          [.obj [("text", JVal.str "x")], goodTask "Hi" "a.mp3"]).1 =
        ⟨some ([] ++ [missingMsg 0]), none, [], 0 + 1, 2⟩ ::
          (processTasks engOk "tmp.mp3" "output_audio" "dv" 0 0 2 (0 + 1)
            ([] ++ [missingMsg 0]) [] [goodTask "Hi" "a.mp3"]).1
      ∧ ∃ pre suf,
          (missingMsg 0).toList = pre ++ (toString 0).toList ++ suf) :=
  ⟨⟨by decide, by decide⟩,
    C6_missing_fields engOk "tmp.mp3" "output_audio" "dv" 0 0 2 0 [] []
      (.obj [("text", JVal.str "x")]) [goodTask "Hi" "a.mp3"]
      (Or.inr ⟨by decide, by decide⟩)⟩

lemma processTasks_noAbort (eng : Engine) (tmp dir dv : String)
    (dr dp : Int) (total : Nat) :
    ∀ (ts : List JVal) (i : Nat) (rs : List String) (fs : List JVal),
    (∀ t ∈ ts, stepAborts eng tmp dir dv dr dp t = false) →
    ((processTasks eng tmp dir dv dr dp total i rs fs ts).1.map
        fun e => e.current) = List.range' (i + 1) ts.length ++ [total]
    ∧ ∀ e ∈ (processTasks eng tmp dir dv dr dp total i rs fs ts).1,
        e.total = total := by
  intro ts
  induction ts with
  | nil =>
    intro i rs fs _
    constructor
    · simp [processTasks]
    · intro e he
      simp only [processTasks, List.mem_singleton] at he
      subst he
      rfl
  | cons t ts ih =>
    intro i rs fs h
    have h0 : stepAborts eng tmp dir dv dr dp t = false := h t (by simp)
    have hrest : ∀ t' ∈ ts, stepAborts eng tmp dir dv dr dp t' = false :=
      fun t' ht' => h t' (by simp [ht'])
    cases hkc : keyCheckOf t with
    | raise => simp [stepAborts, hkc] at h0
    | missing =>
      obtain ⟨ih1, ih2⟩ := ih (i + 1) (rs ++ [missingMsg i]) fs hrest
      constructor
      · simp only [processTasks, hkc, List.map_cons, ih1]
        rfl
      · intro e he
        simp only [processTasks, hkc, List.mem_cons] at he
        rcases he with rfl | he
        · rfl
        · exact ih2 e he
    | present =>
      cases t with
      | obj kvs =>
        cases ht2s : text_to_speech eng tmp (jgetD kvs "text" .null)
            (jgetD kvs "voice" (.str dv)) (jgetD kvs "rate" (.num dr))
            (jgetD kvs "pitch" (.num dp)) dir
            (jgetD kvs "file_name" .null) with
        | exn m c => simp [stepAborts, hkc, ht2s] at h0
        | verr msg =>
          obtain ⟨ih1, ih2⟩ := ih (i + 1) (rs ++ [errItemMsg i msg]) fs hrest
          constructor
          · simp only [processTasks, hkc, ht2s, List.map_cons, ih1]
            rfl
          · intro e he
            simp only [processTasks, hkc, ht2s, List.mem_cons] at he
            rcases he with rfl | he
            · rfl
            · exact ih2 e he
        | ok path call =>
          obtain ⟨ih1, ih2⟩ := ih (i + 1)
            (rs ++ [successMsg (jgetD kvs "file_name" .null)])
            (fs ++ [jgetD kvs "file_name" .null]) hrest
          constructor
          · simp only [processTasks, hkc, ht2s, List.map_cons, ih1]
            rfl
          · intro e he
            simp only [processTasks, hkc, ht2s, List.mem_cons] at he
            rcases he with rfl | he
            · rfl
            · exact ih2 e he
      | null => simp [stepAborts, hkc] at h0
      | bool b => simp [stepAborts, hkc] at h0
      | num n => simp [stepAborts, hkc] at h0
      | str s => simp [stepAborts, hkc] at h0
      | arr xs => simp [stepAborts, hkc] at h0

/-- Claim C1 as amended: when no item's processing raises an exception, a
    batch over a parsed list of N tasks yields exactly N progress events
    plus one final event; the current indices are 1, 2, ..., N followed by N
    on the final event, and every event carries total count N. -/
theorem C1_batch_event_shape (eng : Engine) (tmp dv dir : String)
    (dr dp : Int) (ts : List JVal)
    (h : ∀ t ∈ ts, stepAborts eng tmp dir dv dr dp t = false) :
    (batch_text_to_speech eng tmp (.ok (.arr ts)) dv dr dp dir).1.length =
      ts.length + 1
    ∧ ((batch_text_to_speech eng tmp (.ok (.arr ts)) dv dr dp dir).1.map
        fun e => e.current) = List.range' 1 ts.length ++ [ts.length]
    ∧ ∀ e ∈ (batch_text_to_speech eng tmp (.ok (.arr ts)) dv dr dp dir).1,
        e.total = ts.length := by
  obtain ⟨h1, h2⟩ :=
    processTasks_noAbort eng tmp dir dv dr dp ts.length ts 0 [] [] h
  refine ⟨?_, h1, h2⟩
  have hlen := congrArg List.length h1
  simpa [List.length_range'] using hlen

/-- Counterexample to claim C1 as stated: a parsed list of one task object
    (with a null `"rate"`) yields a single terminal error event — not 1
    progress event plus 1 final event — and that event carries current index
    and total count 0, not the list length. -/
theorem C1_counterexample :
    (batch_text_to_speech engOk "tmp.mp3" (.ok (.arr [rateNullTask])) "dv"
        0 0 "output_audio").1.length = 1
    ∧ ([rateNullTask].length + 1 = 1 → False)
    ∧ ∀ e ∈ (batch_text_to_speech engOk "tmp.mp3"
        (.ok (.arr [rateNullTask])) "dv" 0 0 "output_audio").1,
        e.current = 0 ∧ e.total = 0 :=
  ⟨by decide, by decide, by decide⟩

/-- Witness for C1's amended statement on a concrete two-task batch. -/
theorem C1_batch_event_shape_witness :
    (∀ t ∈ [goodTask "Hi" "a.mp3", goodTask "Yo" "b.mp3"],
      stepAborts engOk "tmp.mp3" "output_audio" "dv" 0 0 t = false)
    ∧ ((batch_text_to_speech engOk "tmp.mp3"
          (.ok (.arr [goodTask "Hi" "a.mp3", goodTask "Yo" "b.mp3"])) "dv"
          0 0 "output_audio").1.length =
        [goodTask "Hi" "a.mp3", goodTask "Yo" "b.mp3"].length + 1
      ∧ ((batch_text_to_speech engOk "tmp.mp3"
          (.ok (.arr [goodTask "Hi" "a.mp3", goodTask "Yo" "b.mp3"])) "dv"
          0 0 "output_audio").1.map fun e => e.current) =
        List.range' 1 [goodTask "Hi" "a.mp3", goodTask "Yo" "b.mp3"].length
          ++ [[goodTask "Hi" "a.mp3", goodTask "Yo" "b.mp3"].length]
      ∧ ∀ e ∈ (batch_text_to_speech engOk "tmp.mp3"
          (.ok (.arr [goodTask "Hi" "a.mp3", goodTask "Yo" "b.mp3"])) "dv"
          0 0 "output_audio").1,
          e.total = [goodTask "Hi" "a.mp3", goodTask "Yo" "b.mp3"].length) :=
  ⟨by decide,
    C1_batch_event_shape engOk "tmp.mp3" "dv" "output_audio" 0 0
      [goodTask "Hi" "a.mp3", goodTask "Yo" "b.mp3"] (by decide)⟩

/-- Counterexample to claim C2 as stated: with an engine whose save raises,
    a two-task batch of well-formed tasks yields a single batch-level error
    event — no per-item error is recorded for item 0 (`results` is `None` in
    every event) and item 1 is never processed. -/
theorem C2_counterexample :
    (batch_text_to_speech engFail "tmp.mp3"
        (.ok (.arr [goodTask "Hi" "a.mp3", goodTask "Yo" "b.mp3"])) "dv" 0 0
        "output_audio").1.length = 1
    ∧ ∀ e ∈ (batch_text_to_speech engFail "tmp.mp3"
        (.ok (.arr [goodTask "Hi" "a.mp3", goodTask "Yo" "b.mp3"])) "dv" 0 0
        "output_audio").1,
        e.results = none ∧ e.current = 0 ∧ e.total = 0 :=
  ⟨by decide, by decide⟩

/-- Claim C2 as amended: an exception raised by the engine call is not
    caught per item — the generator's outer handler yields one terminal
    batch-level error event and processing stops, regardless of the
    remaining tasks.  The item-level failures that are recorded in the log
    and never abort the batch are the validation errors `text_to_speech`
    returns as values (blank text, unselected voice), together with the
    missing-field check. -/
theorem C2_engine_failure (eng : Engine) (tmp dir dv : String)
    (dr dp : Int) (total i : Nat) (rs : List String) (fs : List JVal)
    (kvs : List (String × JVal)) (rest : List JVal) :
    (∀ m c, keyCheckOf (.obj kvs) = .present →
      text_to_speech eng tmp (jgetD kvs "text" .null)
          (jgetD kvs "voice" (.str dv)) (jgetD kvs "rate" (.num dr))
          (jgetD kvs "pitch" (.num dp)) dir (jgetD kvs "file_name" .null) =
        .exn m c →
      (processTasks eng tmp dir dv dr dp total i rs fs
          (.obj kvs :: rest)).1 = [batchExnEvent m])
    ∧ (∀ msg, keyCheckOf (.obj kvs) = .present →
      text_to_speech eng tmp (jgetD kvs "text" .null)
          (jgetD kvs "voice" (.str dv)) (jgetD kvs "rate" (.num dr))
          (jgetD kvs "pitch" (.num dp)) dir (jgetD kvs "file_name" .null) =
        .verr msg →
      (processTasks eng tmp dir dv dr dp total i rs fs
          (.obj kvs :: rest)).1 =
        ⟨some (rs ++ [errItemMsg i msg]), none, fs, i + 1, total⟩ ::
          (processTasks eng tmp dir dv dr dp total (i + 1)
            (rs ++ [errItemMsg i msg]) fs rest).1) := by
  constructor
  · intro m c hkc ht2s
    simp only [processTasks, hkc, ht2s]
  · intro msg hkc ht2s
    simp only [processTasks, hkc, ht2s]

/-- Witness for C2's amended statement: a raising engine ends a concrete
    batch with the single terminal event, while a blank-text validation
    failure is logged per-item and the loop continues. -/
theorem C2_engine_failure_witness :
    (keyCheckOf (.obj [("text", JVal.str "Hi"),
        ("file_name", JVal.str "a.mp3")]) = .present
      ∧ (processTasks engFail "tmp.mp3" "output_audio" "dv" 0 0 2 0 [] []
          [goodTask "Hi" "a.mp3", goodTask "Yo" "b.mp3"]).1 =
        [batchExnEvent "network error"])
    ∧ (keyCheckOf (.obj [("text", JVal.str ""),
        ("file_name", JVal.str "a.mp3")]) = .present
      ∧ (processTasks engOk "tmp.mp3" "output_audio" "dv" 0 0 1 0 [] []
          [goodTask "" "a.mp3"]).1 =
        ⟨some ([] ++ [errItemMsg 0 "Please enter text to convert."]), none,
            [], 0 + 1, 1⟩ ::
          (processTasks engOk "tmp.mp3" "output_audio" "dv" 0 0 1 (0 + 1)
            ([] ++ [errItemMsg 0 "Please enter text to convert."]) []
            []).1) :=
  ⟨⟨by decide,
    (C2_engine_failure engFail "tmp.mp3" "output_audio" "dv" 0 0 2 0 [] []
        [("text", JVal.str "Hi"), ("file_name", JVal.str "a.mp3")]
        [goodTask "Yo" "b.mp3"]).1 "network error"
      (some ⟨"Hi", "dv", "+0%", "+0Hz", "output_audio/a.mp3"⟩) (by decide)
      rfl⟩,
    ⟨by decide,
    (C2_engine_failure engOk "tmp.mp3" "output_audio" "dv" 0 0 1 0 [] []
        [("text", JVal.str ""), ("file_name", JVal.str "a.mp3")] []).2
      "Please enter text to convert." (by decide) rfl⟩⟩

lemma lexLt_asymm : ∀ {a b : List Char},
    lexLt a b = true → lexLt b a = false := by
  intro a
  induction a with
  | nil =>
    intro b h
    cases b with
    | nil => simp [lexLt] at h
    | cons y ys => simp [lexLt]
  | cons x xs ih =>
    intro b h
    cases b with
    | nil => simp [lexLt] at h
    | cons y ys =>
      simp only [lexLt] at h ⊢
      by_cases hxy : x.toNat < y.toNat
      · have : ¬ y.toNat < x.toNat := by omega
        simp [hxy, this]
      · by_cases hyx : y.toNat < x.toNat
        · simp [hxy, hyx] at h
        · simp only [hxy, hyx, if_false]
          simp only [if_neg hxy, if_neg hyx] at h
          exact ih h

lemma lexLt_eq_of_both_false : ∀ {a b : List Char},
    lexLt a b = false → lexLt b a = false → a = b := by
  intro a
  induction a with
  | nil =>
    intro b h1 _
    cases b with
    | nil => rfl
    | cons y ys => simp [lexLt] at h1
  | cons x xs ih =>
    intro b h1 h2
    cases b with
    | nil => simp [lexLt] at h2
    | cons y ys =>
      simp only [lexLt] at h1 h2
      by_cases hxy : x.toNat < y.toNat
      · simp [hxy] at h1
      · by_cases hyx : y.toNat < x.toNat
        · simp [hyx, hxy] at h2
        · have hnat : x.toNat = y.toNat := by omega
          have hx : x = y := Char.ext (UInt32.ext hnat)
          simp only [if_neg hxy, if_neg hyx] at h1 h2
          rw [hx, ih h1 h2]

lemma lexLt_trans : ∀ {a b c : List Char},
    lexLt a b = true → lexLt b c = true → lexLt a c = true := by
  intro a
  induction a with
  | nil =>
    intro b c h1 h2
    cases b with
    | nil => simp [lexLt] at h1
    | cons y ys =>
      cases c with
      | nil => simp [lexLt] at h2
      | cons z zs => simp [lexLt]
  | cons x xs ih =>
    intro b c h1 h2
    cases b with
    | nil => simp [lexLt] at h1
    | cons y ys =>
      cases c with
      | nil => simp [lexLt] at h2
      | cons z zs =>
        simp only [lexLt] at h1 h2 ⊢
        by_cases hxy : x.toNat < y.toNat
        · by_cases hyz : y.toNat < z.toNat
          · have : x.toNat < z.toNat := by omega
            simp [this]
          · by_cases hzy : z.toNat < y.toNat
            · simp [hyz, hzy] at h2
            · have : x.toNat < z.toNat := by omega
              simp [this]
        · by_cases hyx : y.toNat < x.toNat
          · simp [hxy, hyx] at h1
          · have hx : x.toNat = y.toNat := by omega
            simp only [if_neg hxy, if_neg hyx] at h1
            by_cases hyz : y.toNat < z.toNat
            · have : x.toNat < z.toNat := by omega
              simp [this]
            · by_cases hzy : z.toNat < y.toNat
              · simp [hyz, hzy] at h2
              · have h3 : ¬ x.toNat < z.toNat := by omega
                have h4 : ¬ z.toNat < x.toNat := by omega
                simp only [if_neg h3, if_neg h4]
                simp only [if_neg hyz, if_neg hzy] at h2
                exact ih h1 h2

lemma strLeB_total (a b : String) : strLeB a b = true ∨ strLeB b a = true := by
  by_cases h : lexLt b.toList a.toList = true
  · right
    have h2 := lexLt_asymm h
    unfold strLeB
    rw [h2]
    rfl
  · left
    simp only [Bool.not_eq_true] at h
    unfold strLeB
    rw [h]
    rfl

lemma strLeB_antisymm {a b : String} (h1 : strLeB a b = true)
    (h2 : strLeB b a = true) : a = b := by
  unfold strLeB at h1 h2
  simp only [Bool.not_eq_true'] at h1 h2
  exact String.ext (lexLt_eq_of_both_false h2 h1)

lemma strLeB_trans {a b c : String} (h1 : strLeB a b = true)
    (h2 : strLeB b c = true) : strLeB a c = true := by
  unfold strLeB at h1 h2 ⊢
  simp only [Bool.not_eq_true'] at h1 h2 ⊢
  by_contra hc
  simp only [Bool.not_eq_false] at hc
  by_cases hab : lexLt a.toList b.toList = true
  · by_cases hbc : lexLt b.toList c.toList = true
    · have := lexLt_trans hab hbc
      have := lexLt_asymm this
      rw [this] at hc
      exact Bool.false_ne_true hc
    · simp only [Bool.not_eq_true] at hbc
      have : b = c := String.ext (lexLt_eq_of_both_false hbc h2)
      subst this
      have := lexLt_asymm hc
      rw [this] at hab
      exact Bool.false_ne_true hab
  · simp only [Bool.not_eq_true] at hab
    have : a = b := String.ext (lexLt_eq_of_both_false hab h1)
    subst this
    rw [hc] at h2
    exact Bool.noConfusion h2

lemma insertSorted_perm (x : String) (l : List String) :
    (insertSorted x l).Perm (x :: l) := by
  induction l with
  | nil => exact List.Perm.refl _
  | cons y ys ih =>
    unfold insertSorted
    split
    · exact List.Perm.refl _
    · exact (ih.cons y).trans (List.Perm.swap x y ys)

lemma sortStrings_perm (l : List String) : (sortStrings l).Perm l := by
  induction l with
  | nil => exact List.Perm.refl _
  | cons x xs ih =>
    exact (insertSorted_perm x (sortStrings xs)).trans (ih.cons x)

lemma pairwise_insertSorted (x : String) (l : List String)
    (h : l.Pairwise fun a b => strLeB a b = true) :
    (insertSorted x l).Pairwise fun a b => strLeB a b = true := by
  induction l with
  | nil => exact List.pairwise_singleton _ _
  | cons y ys ih =>
    rw [List.pairwise_cons] at h
    obtain ⟨hy, hys⟩ := h
    unfold insertSorted
    split
    · rename_i hxy
      refine List.Pairwise.cons ?_ (List.Pairwise.cons hy hys)
      intro z hz
      rcases List.mem_cons.mp hz with rfl | hz
      · exact hxy
      · exact strLeB_trans hxy (hy z hz)
    · rename_i hxy
      have hyx : strLeB y x = true := by
        rcases strLeB_total x y with h | h
        · exact absurd h hxy
        · exact h
      refine List.Pairwise.cons ?_ (ih hys)
      intro z hz
      rcases List.mem_cons.mp ((insertSorted_perm x ys).mem_iff.mp hz)
        with rfl | hz
      · exact hyx
      · exact hy z hz

lemma sortStrings_sorted (l : List String) :
    (sortStrings l).Pairwise fun a b => strLeB a b = true := by
  induction l with
  | nil => exact List.Pairwise.nil
  | cons x xs ih => exact pairwise_insertSorted x (sortStrings xs) ih

lemma sortStrings_eq_of_perm {l₁ l₂ : List String} (h : l₁.Perm l₂) :
    sortStrings l₁ = sortStrings l₂ := by
  letI : IsAntisymm String (fun a b => strLeB a b = true) :=
    ⟨fun a b => strLeB_antisymm⟩
  exact List.eq_of_perm_of_sorted
    ((sortStrings_perm l₁).trans (h.trans (sortStrings_perm l₂).symm))
    (sortStrings_sorted l₁) (sortStrings_sorted l₂)

lemma mem_dedupFirst : ∀ (l : List String) (a : String),
    a ∈ dedupFirst l ↔ a ∈ l := by
  intro l
  induction l using dedupFirst.induct with
  | case1 => simp [dedupFirst]
  | case2 x xs ih =>
    intro a
    rw [dedupFirst]
    constructor
    · intro h
      rcases List.mem_cons.mp h with rfl | h
      · exact List.mem_cons_self _ _
      · have := (ih a).mp h
        exact List.mem_cons_of_mem _ (List.mem_of_mem_filter this)
    · intro h
      rcases List.mem_cons.mp h with rfl | h
      · exact List.mem_cons_self _ _
      · by_cases hax : a = x
        · subst hax
          exact List.mem_cons_self _ _
        · refine List.mem_cons_of_mem _ ((ih a).mpr ?_)
          exact List.mem_filter.mpr ⟨h, by simp [hax]⟩

lemma dedupFirst_nodup : ∀ l : List String, (dedupFirst l).Nodup := by
  intro l
  induction l using dedupFirst.induct with
  | case1 => simp [dedupFirst]
  | case2 x xs ih =>
    rw [dedupFirst]
    refine List.Nodup.cons ?_ ih
    intro hmem
    have := (mem_dedupFirst _ x).mp hmem
    have := List.mem_filter.mp this
    simp at this

lemma orderLoop_inv : ∀ (ts : List JVal) (avail : List String)
    (p : List String × List String),
    avail.Nodup → orderLoop ts avail = some p →
    p.1.Nodup ∧ p.2.Nodup ∧ (∀ x ∈ p.1, x ∈ avail)
    ∧ (∀ x ∈ p.2, x ∈ avail) ∧ ∀ x ∈ p.1, x ∉ p.2 := by
  intro ts
  induction ts with
  | nil =>
    intro avail p hn hp
    simp only [orderLoop, Option.some.injEq] at hp
    subst hp
    exact ⟨List.nodup_nil, hn, by simp, fun x hx => hx, by simp⟩
  | cons task rest ih =>
    intro avail p hn hp
    cases task with
    | obj kvs =>
      cases hlk : jlookup kvs "file_name" with
      | none =>
        simp only [orderLoop, hlk] at hp
        exact ih avail p hn hp
      | some v =>
        cases v with
        | str s =>
          simp only [orderLoop, hlk] at hp
          by_cases hs : s ∈ avail
          · rw [if_pos hs] at hp
            cases hrec : orderLoop rest (avail.erase s) with
            | none => rw [hrec] at hp; exact Option.noConfusion hp
            | some q =>
              rw [hrec] at hp
              simp only [Option.some.injEq] at hp
              subst hp
              obtain ⟨h1, h2, h3, h4, h5⟩ :=
                ih (avail.erase s) q (hn.erase s) hrec
              refine ⟨?_, h2, ?_, ?_, ?_⟩
              · refine List.Nodup.cons ?_ h1
                intro hmem
                exact hn.not_mem_erase (h3 s hmem)
              · intro x hx
                rcases List.mem_cons.mp hx with rfl | hx
                · exact hs
                · exact List.mem_of_mem_erase (h3 x hx)
              · intro x hx
                exact List.mem_of_mem_erase (h4 x hx)
              · intro x hx
                rcases List.mem_cons.mp hx with rfl | hx
                · intro hc
                  exact hn.not_mem_erase (h4 x hc)
                · exact h5 x hx
          · rw [if_neg hs] at hp
            exact ih avail p hn hp
        | null =>
          simp only [orderLoop, hlk] at hp
          exact ih avail p hn hp
        | bool b =>
          simp only [orderLoop, hlk] at hp
          exact ih avail p hn hp
        | num n =>
          simp only [orderLoop, hlk] at hp
          exact ih avail p hn hp
        | arr xs =>
          simp only [orderLoop, hlk] at hp
          exact Option.noConfusion hp
        | obj kvs2 =>
          simp only [orderLoop, hlk] at hp
          exact Option.noConfusion hp
    | str s' =>
      simp only [orderLoop] at hp
      split at hp
      · exact Option.noConfusion hp
      · exact ih avail p hn hp
    | arr xs =>
      simp only [orderLoop] at hp
      split at hp
      · exact Option.noConfusion hp
      · exact ih avail p hn hp
    | null =>
      simp only [orderLoop] at hp
      exact Option.noConfusion hp
    | bool b =>
      simp only [orderLoop] at hp
      exact Option.noConfusion hp
    | num n =>
      simp only [orderLoop] at hp
      exact Option.noConfusion hp

/-- Claim C10: the sequence returned by `update_audio_list` never contains a
    file name twice — for every directory state and every ordering JSON,
    including ones referencing the same `file_name` in several tasks
    (a matched name is removed from the available set on first use). -/
theorem C10_no_duplicates (dirE : Bool) (listing : List String)
    (jin : Option (Except String JVal)) :
    (update_audio_list dirE listing jin).Nodup := by
  unfold update_audio_list
  split
  · exact List.nodup_nil
  · have hav : (dedupFirst (listing.filter (strEnds · ".mp3"))).Nodup :=
      dedupFirst_nodup _
    cases jin with
    | none => exact (sortStrings_perm _).symm.nodup hav
    | some ex =>
      cases ex with
      | error e => exact (sortStrings_perm _).symm.nodup hav
      | ok v =>
        cases v with
        | arr ts =>
          cases hloop : orderLoop ts
              (dedupFirst (listing.filter (strEnds · ".mp3"))) with
          | none =>
            simp only [hloop]
            exact List.nodup_nil
          | some pq =>
            simp only [hloop]
            obtain ⟨h1, h2, _, _, h5⟩ := orderLoop_inv ts _ pq hav hloop
            refine List.Nodup.append h1 ((sortStrings_perm _).symm.nodup h2)
              ?_
            intro x hx1 hx2
            exact h5 x hx1 ((sortStrings_perm _).mem_iff.mp hx2)
        | null => exact (sortStrings_perm _).symm.nodup hav
        | bool b => exact (sortStrings_perm _).symm.nodup hav
        | num n => exact (sortStrings_perm _).symm.nodup hav
        | str s => exact (sortStrings_perm _).symm.nodup hav
        | obj kvs => exact (sortStrings_perm _).symm.nodup hav

lemma orderLoop_spec : ∀ (ts : List JVal) (avail : List String),
    (∀ t ∈ ts, wfTask t = true) → avail.Nodup →
    orderLoop ts avail =
      some (dedupFirst ((jsonNames ts).filter fun n => decide (n ∈ avail)),
        avail.filter fun x => decide (x ∉ jsonNames ts)) := by
  intro ts
  induction ts with
  | nil =>
    intro avail _ _
    simp [orderLoop, jsonNames, dedupFirst]
  | cons task rest ih =>
    intro avail hwf hn
    have hwt : wfTask task = true := hwf task (by simp)
    have hwrest : ∀ t ∈ rest, wfTask t = true :=
      fun t ht => hwf t (by simp [ht])
    cases task with
    | obj kvs =>
      cases hlk : jlookup kvs "file_name" with
      | none =>
        have hjn : jsonNames (JVal.obj kvs :: rest) = jsonNames rest := by
          simp [jsonNames, taskFileName, hlk]
        simp only [orderLoop, hlk, hjn]
        exact ih avail hwrest hn
      | some v =>
        cases v with
        | str s =>
          have hjn : jsonNames (JVal.obj kvs :: rest) =
              s :: jsonNames rest := by
            simp [jsonNames, taskFileName, hlk]
          simp only [orderLoop, hlk, hjn]
          by_cases hs : s ∈ avail
          · rw [if_pos hs, ih (avail.erase s) hwrest (hn.erase s)]
            have hord : dedupFirst ((s :: jsonNames rest).filter
                  fun n => decide (n ∈ avail)) =
                s :: dedupFirst ((jsonNames rest).filter
                  fun n => decide (n ∈ avail.erase s)) := by
              rw [List.filter_cons, if_pos (by simpa using hs)]
              rw [dedupFirst]
              refine congrArg (s :: ·) ?_
              rw [List.filter_filter]
              refine congrArg dedupFirst (List.filter_congr ?_)
              intro n _
              by_cases h1 : n = s
              · simp [h1, List.Nodup.mem_erase_iff hn]
              · by_cases h2 : n ∈ avail <;>
                  simp [h1, h2, List.Nodup.mem_erase_iff hn]
            have hrem : (avail.erase s).filter
                  (fun x => decide (x ∉ jsonNames rest)) =
                avail.filter
                  (fun x => decide (x ∉ s :: jsonNames rest)) := by
              rw [hn.erase_eq_filter, List.filter_filter]
              refine List.filter_congr ?_
              intro x _
              by_cases h1 : x = s <;>
                by_cases h2 : x ∈ jsonNames rest <;> simp [h1, h2]
            rw [hord, hrem]
          · rw [if_neg hs, ih avail hwrest hn]
            have hord : (s :: jsonNames rest).filter
                  (fun n => decide (n ∈ avail)) =
                (jsonNames rest).filter (fun n => decide (n ∈ avail)) := by
              rw [List.filter_cons, if_neg (by simpa using hs)]
            have hrem : avail.filter
                  (fun x => decide (x ∉ jsonNames rest)) =
                avail.filter
                  (fun x => decide (x ∉ s :: jsonNames rest)) := by
              refine List.filter_congr ?_
              intro x hx
              have hxs : x ≠ s := fun hc => hs (hc ▸ hx)
              by_cases h2 : x ∈ jsonNames rest <;>
                simp [List.mem_cons, not_or, hxs, h2]
            rw [hord, hrem]
        | null => simp [wfTask, hlk] at hwt
        | bool b => simp [wfTask, hlk] at hwt
        | num n => simp [wfTask, hlk] at hwt
        | arr xs => simp [wfTask, hlk] at hwt
        | obj kvs2 => simp [wfTask, hlk] at hwt
    | str s => simp [wfTask] at hwt
    | arr xs => simp [wfTask] at hwt
    | null => simp [wfTask] at hwt
    | bool b => simp [wfTask] at hwt
    | num n => simp [wfTask] at hwt

/-- Claim C4: with the output directory present, for a listing and an
    ordering JSON that parses to a list of tasks, the reconciler returns
    first the JSON-referenced file names that exist on disk — each once,
    ordered by first appearance in the JSON, names absent on disk silently
    skipped — followed by the on-disk `.mp3` files not referenced in the
    JSON, in lexicographic order. -/
theorem C4_reconciler_order (listing : List String) (ts : List JVal)
    (hwf : ∀ t ∈ ts, wfTask t = true) :
    update_audio_list true listing (some (.ok (.arr ts))) =
      dedupFirst ((jsonNames ts).filter fun n =>
        decide (n ∈ dedupFirst (listing.filter (strEnds · ".mp3"))))
      ++ sortStrings
        ((dedupFirst (listing.filter (strEnds · ".mp3"))).filter fun x =>
          decide (x ∉ jsonNames ts)) := by
  show (match orderLoop ts (dedupFirst (listing.filter (strEnds · ".mp3")))
      with
    | some p => p.1 ++ sortStrings p.2
    | none => []) = _
  rw [orderLoop_spec ts _ hwf (dedupFirst_nodup _)]

lemma orderLoop_perm : ∀ (ts : List JVal) (a₁ a₂ : List String),
    a₁.Perm a₂ →
    (orderLoop ts a₁ = none → orderLoop ts a₂ = none)
    ∧ ∀ p₁, orderLoop ts a₁ = some p₁ →
        ∃ p₂, orderLoop ts a₂ = some p₂ ∧ p₁.1 = p₂.1 ∧ p₁.2.Perm p₂.2 := by
  intro ts
  induction ts with
  | nil =>
    intro a₁ a₂ hperm
    constructor
    · intro h
      simp [orderLoop] at h
    · intro p₁ hp
      simp only [orderLoop, Option.some.injEq] at hp
      subst hp
      exact ⟨([], a₂), rfl, rfl, hperm⟩
  | cons task rest ih =>
    intro a₁ a₂ hperm
    cases task with
    | obj kvs =>
      cases hlk : jlookup kvs "file_name" with
      | none =>
        simp only [orderLoop, hlk]
        exact ih a₁ a₂ hperm
      | some v =>
        cases v with
        | str s =>
          simp only [orderLoop, hlk]
          by_cases hs : s ∈ a₁
          · have hs₂ : s ∈ a₂ := hperm.mem_iff.mp hs
            rw [if_pos hs, if_pos hs₂]
            obtain ⟨ihn, ihs⟩ := ih (a₁.erase s) (a₂.erase s) (hperm.erase s)
            cases hr : orderLoop rest (a₁.erase s) with
            | none =>
              rw [ihn hr]
              exact ⟨fun _ => rfl, fun p₁ hp => Option.noConfusion hp⟩
            | some q₁ =>
              obtain ⟨q₂, hq₂, he, hp2⟩ := ihs q₁ hr
              rw [hq₂]
              refine ⟨fun h => Option.noConfusion h, ?_⟩
              intro p₁ hp
              simp only [Option.some.injEq] at hp
              subst hp
              exact ⟨(s :: q₂.1, q₂.2), rfl, by simp [he], hp2⟩
          · have hs₂ : s ∉ a₂ := fun hc => hs (hperm.mem_iff.mpr hc)
            rw [if_neg hs, if_neg hs₂]
            exact ih a₁ a₂ hperm
        | null =>
          simp only [orderLoop, hlk]
          exact ih a₁ a₂ hperm
        | bool b =>
          simp only [orderLoop, hlk]
          exact ih a₁ a₂ hperm
        | num n =>
          simp only [orderLoop, hlk]
          exact ih a₁ a₂ hperm
        | arr xs =>
          simp only [orderLoop, hlk]
          exact ⟨by simp, by simp⟩
        | obj kvs2 =>
          simp only [orderLoop, hlk]
          exact ⟨by simp, by simp⟩
    | str s' =>
      simp only [orderLoop]
      split
      · exact ⟨by simp, fun p₁ hp => Option.noConfusion hp⟩
      · exact ih a₁ a₂ hperm
    | arr xs =>
      simp only [orderLoop]
      split
      · exact ⟨by simp, fun p₁ hp => Option.noConfusion hp⟩
      · exact ih a₁ a₂ hperm
    | null =>
      exact ⟨fun _ => rfl, fun p₁ hp => Option.noConfusion hp⟩
    | bool b =>
      exact ⟨fun _ => rfl, fun p₁ hp => Option.noConfusion hp⟩
    | num n =>
      exact ⟨fun _ => rfl, fun p₁ hp => Option.noConfusion hp⟩

/-- Claim C8: the reconciler is deterministic — its output depends on the
    directory contents only as a set, so any two listings that enumerate the
    same contents (permutations of each other) with the same ordering JSON
    produce the same output sequence; repeated calls on identical inputs
    agree as the special case of the identity permutation. -/
theorem C8_reconciler_deterministic (dirE : Bool) (l₁ l₂ : List String)
    (jin : Option (Except String JVal)) (h : l₁.Perm l₂) :
    update_audio_list dirE l₁ jin = update_audio_list dirE l₂ jin := by
  have hfil : (l₁.filter (strEnds · ".mp3")).Perm
      (l₂.filter (strEnds · ".mp3")) := h.filter _
  have havail : (dedupFirst (l₁.filter (strEnds · ".mp3"))).Perm
      (dedupFirst (l₂.filter (strEnds · ".mp3"))) :=
    (List.perm_ext_iff_of_nodup (dedupFirst_nodup _) (dedupFirst_nodup _)).mpr
      fun a => by rw [mem_dedupFirst, mem_dedupFirst, hfil.mem_iff]
  unfold update_audio_list
  split
  · rfl
  · cases jin with
    | none => exact sortStrings_eq_of_perm havail
    | some ex =>
      cases ex with
      | error e => exact sortStrings_eq_of_perm havail
      | ok v =>
        cases v with
        | arr ts =>
          obtain ⟨hnone, hsome⟩ := orderLoop_perm ts _ _ havail
          cases hl : orderLoop ts
              (dedupFirst (l₁.filter (strEnds · ".mp3"))) with
          | none => simp only [hl, hnone hl]
          | some p₁ =>
            obtain ⟨p₂, h2, he, hp⟩ := hsome p₁ hl
            simp only [hl, h2]
            rw [he, sortStrings_eq_of_perm hp]
        | null => exact sortStrings_eq_of_perm havail
        | bool b => exact sortStrings_eq_of_perm havail
        | num n => exact sortStrings_eq_of_perm havail
        | str s => exact sortStrings_eq_of_perm havail
        | obj kvs => exact sortStrings_eq_of_perm havail

/-- Witness for C4 on a concrete directory and ordering JSON. -/
theorem C4_reconciler_order_witness :
    (∀ t ∈ [JVal.obj [("file_name", JVal.str "b.mp3")],
        JVal.obj [("text", JVal.str "x")],
        JVal.obj [("file_name", JVal.str "nope.mp3")]], wfTask t = true)
    ∧ update_audio_list true ["z.mp3", "b.mp3", "a.mp3", "notes.txt"]
        (some (.ok (.arr [JVal.obj [("file_name", JVal.str "b.mp3")],
          JVal.obj [("text", JVal.str "x")],
          JVal.obj [("file_name", JVal.str "nope.mp3")]]))) =
      dedupFirst ((jsonNames [JVal.obj [("file_name", JVal.str "b.mp3")],
          JVal.obj [("text", JVal.str "x")],
          JVal.obj [("file_name", JVal.str "nope.mp3")]]).filter fun n =>
        decide (n ∈ dedupFirst
          ((["z.mp3", "b.mp3", "a.mp3", "notes.txt"] : List String).filter
            (strEnds · ".mp3"))))
      ++ sortStrings ((dedupFirst
          ((["z.mp3", "b.mp3", "a.mp3", "notes.txt"] : List String).filter
            (strEnds · ".mp3"))).filter fun x =>
        decide (x ∉ jsonNames [JVal.obj [("file_name", JVal.str "b.mp3")],
          JVal.obj [("text", JVal.str "x")],
          JVal.obj [("file_name", JVal.str "nope.mp3")]])) :=
  ⟨by decide,
    C4_reconciler_order ["z.mp3", "b.mp3", "a.mp3", "notes.txt"]
      [JVal.obj [("file_name", JVal.str "b.mp3")],
        JVal.obj [("text", JVal.str "x")],
        JVal.obj [("file_name", JVal.str "nope.mp3")]] (by decide)⟩

/-- Witness for C8 on two enumeration orders of the same directory. -/
theorem C8_reconciler_deterministic_witness :
    (["b.mp3", "a.mp3"] : List String).Perm ["a.mp3", "b.mp3"]
    ∧ update_audio_list true ["b.mp3", "a.mp3"] none =
      update_audio_list true ["a.mp3", "b.mp3"] none :=
  ⟨List.Perm.swap "a.mp3" "b.mp3" [],
    C8_reconciler_deterministic true ["b.mp3", "a.mp3"] ["a.mp3", "b.mp3"]
      none (List.Perm.swap "a.mp3" "b.mp3" [])⟩
